import Mathlib

/-!
Verification of the lapor-bot activity accounting and leaderboard engine.

Shallow embedding of:
- `internal/domain/report.go` (the `Report` record and repository contract),
- `internal/app/usecase/report_activity_usecase.go` (`ReportActivityUsecase.Execute`),
- the leaderboard usecase (`GetLeaderboardUsecase.Execute`),
- the command router (`HandleMessageUsecase.Execute`, modelled from the spec,
  since its source file is absent from the snapshot).

Go `time.Time` values are only ever used here through
`time.Date(t.Year(), t.Month(), t.Day(), 0,0,0,0, t.Location())` (truncation
to the calendar day), `AddDate(0,0,-1)` (previous calendar day) and `Equal`.
We therefore model a timestamp as a calendar-day index (an integer, in the
single local timezone the program uses) together with an opaque time-of-day
component.  Truncation zeroes the time-of-day, `AddDate(0,0,-1)` shifts the
day index by -1, and `Equal` is structural equality.
-/

namespace LaporBot

/-- A Go `time.Time` restricted to the operations the program performs:
`day` is the calendar-day index in the local timezone, `tod` the time of day
within that calendar day. -/
structure GoTime where
  day : Int
  tod : Nat
deriving DecidableEq, Repr

/-- `time.Date(t.Year(), t.Month(), t.Day(), 0, 0, 0, 0, t.Location())`:
truncation of a timestamp to midnight of its calendar day. -/
def startOfDay (t : GoTime) : GoTime := ⟨t.day, 0⟩

/-- `t.AddDate(0, 0, n)`: shift a timestamp by `n` calendar days. -/
def addDays (t : GoTime) (n : Int) : GoTime := ⟨t.day + n, t.tod⟩

/-- `domain.Report` from `internal/domain/report.go`. -/
structure Report where
  userID : String
  name : String
  streak : Int
  activityCount : Int
  lastReportDate : GoTime
deriving DecidableEq, Repr

/-- The accepted-report message template of
`ReportActivityUsecase.Execute`:
`fmt.Sprintf("Laporan diterima, %s sudah berkeringat %d hari. Lanjutkan 🔥", name, report.ActivityCount)`. -/
def acceptedMsg (name : String) (count : Int) : String :=
  "Laporan diterima, " ++ name ++ " sudah berkeringat " ++ toString count
    ++ " hari. Lanjutkan 🔥"

/-- The same-day rejection message template of
`ReportActivityUsecase.Execute`:
`fmt.Sprintf("%s sudah laporan hari ini, ayo jangan curang! 😉", name)`. -/
def rejectedMsg (name : String) : String :=
  name ++ " sudah laporan hari ini, ayo jangan curang! 😉"

/-- Outcome of one `ReportActivityUsecase.Execute` invocation: the returned
message string, the returned error (Go `error`, `none` = `nil`), and the
report passed to `repo.UpsertReport` when that call was made (`none` when no
write was attempted). -/
structure ExecResult where
  message : String
  errMsg : Option String
  upserted : Option Report
deriving DecidableEq, Repr

namespace ReportActivityUsecase

/-- `ReportActivityUsecase.Execute` from
`internal/app/usecase/report_activity_usecase.go`, parametrised by the
outcome of the repository collaborators: `getRes` is the result of
`repo.GetReport` (`Except.error` = failed read, `Except.ok none` = no
record), and `upsertRes r` is the error returned by `repo.UpsertReport(r)`
(`none` = success). -/
def Execute (getRes : Except String (Option Report))
    (upsertRes : Report → Option String) (now : GoTime)
    (userID name : String) : ExecResult :=
  match getRes with
  | Except.error e => ⟨"", some e, none⟩
  | Except.ok reportOpt =>
    let today := startOfDay now
    match reportOpt with
    | some report =>
      let lastReportDate := startOfDay report.lastReportDate
      if lastReportDate = today then
        ⟨rejectedMsg name, none, none⟩
      else
        let yesterday := addDays today (-1)
        let report1 :=
          if lastReportDate = yesterday then
            { report with streak := report.streak + 1 }
          else
            { report with streak := 1 }
        let report2 := { report1 with
          activityCount := report1.activityCount + 1,
          name := name,
          lastReportDate := now }
        match upsertRes report2 with
        | some e => ⟨"", some e, some report2⟩
        | none => ⟨acceptedMsg name report2.activityCount, none, some report2⟩
    | none =>
      let report := Report.mk userID name 1 1 now
      match upsertRes report with
      | some e => ⟨"", some e, some report⟩
      | none => ⟨acceptedMsg name report.activityCount, none, some report⟩

end ReportActivityUsecase

/-- `repo.GetReport`: lookup of the stored record by member key (the mock
repository's `m.reports[userID]`; the sqlite repository selects by the
`user_id` primary key). -/
def getReport (store : List Report) (userID : String) : Option Report :=
  store.find? (fun r => r.userID == userID)

/-- `repo.UpsertReport`: insert-or-replace keyed by `userID`. -/
def upsertReport (store : List Report) (report : Report) : List Report :=
  if store.any (fun r => r.userID == report.userID) then
    store.map (fun r => if r.userID == report.userID then report else r)
  else
    store ++ [report]

namespace ReportActivityUsecase

/-- One `ReportActivityUsecase.Execute` invocation against an in-memory
store with infallible collaborators: returns the reply message and the
store after the invocation. -/
def run (store : List Report) (now : GoTime) (userID name : String) :
    String × List Report :=
  let res := Execute (Except.ok (getReport store userID)) (fun _ => none)
    now userID name
  (res.message,
    match res.upserted with
    | some r => upsertReport store r
    | none => store)

end ReportActivityUsecase

/-- Civil-calendar date (year, month, day-of-month) of a calendar-day index
(days since 1970-01-01), used only to render the header date the way Go's
`now.Format("02-01-2006")` does. -/
def civilFromDays (z : Int) : Int × Int × Int :=
  let z := z + 719468
  let era := (if 0 ≤ z then z else z - 146096) / 146097
  let doe := z - era * 146097
  let yoe := (doe - doe / 1460 + doe / 36524 - doe / 146096) / 365
  let y := yoe + era * 400
  let doy := doe - (365 * yoe + yoe / 4 - yoe / 100)
  let mp := (5 * doy + 2) / 153
  let d := doy - (153 * mp + 2) / 5 + 1
  let m := mp + (if mp < 10 then 3 else -9)
  (y + (if m ≤ 2 then 1 else 0), m, d)

/-- Zero-padding to two digits, as Go's `02`/`01` layout fields do. -/
def pad2 (n : Int) : String :=
  if 0 ≤ n ∧ n < 10 then "0" ++ toString n else toString n

/-- `now.Format("02-01-2006")`: the date rendered as `DD-MM-YYYY`. -/
def formatDate (t : GoTime) : String :=
  let c := civilFromDays t.day
  pad2 c.2.2 ++ "-" ++ pad2 c.2.1 ++ "-" ++ toString c.1

namespace GetLeaderboardUsecase

/-- The `keepStreak` slice built by `GetLeaderboardUsecase.Execute`:
reports whose truncated `lastReportDate` equals today or yesterday. -/
def keepStreakOf (reports : List Report) (now : GoTime) : List Report :=
  let today := startOfDay now
  let yesterday := addDays today (-1)
  reports.filter (fun r =>
    decide (startOfDay r.lastReportDate = today ∨
      startOfDay r.lastReportDate = yesterday))

/-- The `loseStreak` slice built by `GetLeaderboardUsecase.Execute`: the
reports the loop's `else` branch collects. -/
def loseStreakOf (reports : List Report) (now : GoTime) : List Report :=
  let today := startOfDay now
  let yesterday := addDays today (-1)
  reports.filter (fun r =>
    !decide (startOfDay r.lastReportDate = today ∨
      startOfDay r.lastReportDate = yesterday))

/-- `sort.Slice(s, func(i, j) { return s[i].Streak > s[j].Streak })`: a sort
of the slice by `Streak` descending (Go's sort gives some order satisfying
the comparator; we model it with a merge sort under the total relation
`b.streak ≤ a.streak`). -/
def sortByStreakDesc (l : List Report) : List Report :=
  l.mergeSort (fun a b => decide (b.streak ≤ a.streak))

/-- The `maxDay` computation of `GetLeaderboardUsecase.Execute`: start at 0
and take every `ActivityCount` that exceeds the running maximum. -/
def maxDayOf (reports : List Report) : Int :=
  reports.foldl
    (fun maxDay r => if maxDay < r.activityCount then r.activityCount else maxDay) 0

/-- `fmt.Sprintf("30 Days of Sweat Challenge – Day %d (%s)\n\n", maxDay, dateStr)`. -/
def headerLine (maxDay : Int) (dateStr : String) : String :=
  "30 Days of Sweat Challenge – Day " ++ toString maxDay ++ " (" ++ dateStr
    ++ ")\n\n"

/-- The recap block: the `"Recap day %d:"`, `"%d peoples keep the streak 🔥"`,
`"%d lose the streak 💔"` and `"Update klasemen sementara:"` writes. -/
def recapBlock (maxDay : Int) (keepCount loseCount : Nat) : String :=
  "Recap day " ++ toString maxDay ++ ":\n" ++ toString keepCount
    ++ " peoples keep the streak 🔥\n" ++ toString loseCount
    ++ " lose the streak 💔\n" ++ "\nUpdate klasemen sementara:\n"

/-- `fmt.Sprintf("%d. %s - %d days streak 🔥\n", rank, r.Name, r.Streak)`. -/
def activeLine (rank : Nat) (r : Report) : String :=
  toString rank ++ ". " ++ r.name ++ " - " ++ toString r.streak
    ++ " days streak 🔥\n"

/-- `fmt.Sprintf("%d. %s - Day %d 💔\n", rank, r.Name, r.ActivityCount)`. -/
def lostLine (rank : Nat) (r : Report) : String :=
  toString rank ++ ". " ++ r.name ++ " - Day " ++ toString r.activityCount
    ++ " 💔\n"

/-- The ranked-line loop: renders each report with the running `rank`
counter, which increases by one per line. -/
def renderRanked (line : Nat → Report → String) (rank : Nat) :
    List Report → List String
  | [] => []
  | r :: rs => line rank r :: renderRanked line (rank + 1) rs

/-- The closing text written after the ranked lines. -/
def footer : String :=
  "\nYang udah keringetan langsung update/posting aja nanti dimasukkin klasemen 💪\n\nSemangat🔥"

/-- `GetLeaderboardUsecase.Execute` given the list returned by
`repo.GetAllReports`: partitions into `keepStreak`/`loseStreak`, sorts each
by streak descending, computes `maxDay`, and renders the full message with
one rank counter running through both partitions, active first. -/
def Execute (reports : List Report) (now : GoTime) : String :=
  let keepStreak := sortByStreakDesc (keepStreakOf reports now)
  let loseStreak := sortByStreakDesc (loseStreakOf reports now)
  let maxDay := maxDayOf reports
  headerLine maxDay (formatDate now)
    ++ recapBlock maxDay keepStreak.length loseStreak.length
    ++ String.join (renderRanked activeLine 1 keepStreak)
    ++ String.join (renderRanked lostLine (1 + keepStreak.length) loseStreak)
    ++ footer

/-- One `GetLeaderboardUsecase.Execute` invocation against an in-memory
store: the usecase only reads (`GetAllReports`), so the store is returned
unchanged. -/
def run (store : List Report) (now : GoTime) : String × List Report :=
  (Execute store now, store)

end GetLeaderboardUsecase

/-- ASCII whitespace recognised when trimming an inbound message
(Go `strings.TrimSpace` on the characters the commands can carry). -/
def isSpaceChar (c : Char) : Bool :=
  c == ' ' || c == '\t' || c == '\n' || c == '\r'

/-- ASCII case folding of one character (Go `strings.ToLower` restricted to
ASCII, which is all the command tokens contain). -/
def asciiLower (c : Char) : Char :=
  if 65 ≤ c.toNat ∧ c.toNat ≤ 90 then Char.ofNat (c.toNat + 32) else c

/-- Modelled from the spec: the Command Router's normalization of
`rawText` — trim surrounding whitespace, then case-fold — expressed on the
character list. -/
def normalizedText (rawText : String) : List Char :=
  (((rawText.data.dropWhile isSpaceChar).reverse.dropWhile
      isSpaceChar).reverse).map asciiLower

namespace HandleMessageUsecase

/-- Modelled from the spec: the Command Router (`HandleMessageUsecase.Execute`)
source file is missing from the repository snapshot (only its tests in
`handle_message_usecase_test.go` and its callers in `cmd/bot/main.go` are
present).  Per the spec it normalizes `rawText` by trimming surrounding
whitespace and comparing case-insensitively; a trimmed, case-folded text
starting with `#lapor` dispatches to the Streak Accounting Operation, one
starting with `#leaderboard` dispatches to the Leaderboard Operation
(trailing text after the token is accepted and ignored), and any other text
yields an empty result with no dispatch and no persistence. -/
def Execute (store : List Report) (now : GoTime)
    (userID name rawText : String) : String × List Report :=
  let text := normalizedText rawText
  if "#lapor".data.isPrefixOf text then
    ReportActivityUsecase.run store now userID name
  else if "#leaderboard".data.isPrefixOf text then
    GetLeaderboardUsecase.run store now
  else
    ("", store)

end HandleMessageUsecase

example :
    ReportActivityUsecase.run [] ⟨10, 3⟩ "u1" "Alice" =
      ("Laporan diterima, Alice sudah berkeringat 1 hari. Lanjutkan 🔥",
        [⟨"u1", "Alice", 1, 1, ⟨10, 3⟩⟩]) := by decide

example :
    ReportActivityUsecase.run [⟨"u1", "Bob", 5, 10, ⟨9, 7⟩⟩] ⟨10, 3⟩ "u1" "Bob" =
      ("Laporan diterima, Bob sudah berkeringat 11 hari. Lanjutkan 🔥",
        [⟨"u1", "Bob", 6, 11, ⟨10, 3⟩⟩]) := by decide

example :
    ReportActivityUsecase.run [⟨"u1", "Diana", 7, 15, ⟨10, 1⟩⟩] ⟨10, 3⟩ "u1" "Diana" =
      ("Diana sudah laporan hari ini, ayo jangan curang! 😉",
        [⟨"u1", "Diana", 7, 15, ⟨10, 1⟩⟩]) := by decide

example :
    ReportActivityUsecase.run [⟨"u1", "Charlie", 20, 25, ⟨7, 1⟩⟩] ⟨10, 3⟩ "u1" "Charlie" =
      ("Laporan diterima, Charlie sudah berkeringat 26 hari. Lanjutkan 🔥",
        [⟨"u1", "Charlie", 1, 26, ⟨10, 3⟩⟩]) := by decide

theorem find?_replaceKey (store : List Report) (u : Report) :
    (store.map (fun r => if r.userID == u.userID then u else r)).find?
        (fun r => r.userID == u.userID) =
      if store.any (fun r => r.userID == u.userID) then some u else none := by
  induction store with
  | nil => rfl
  | cons s rest ih =>
    rw [List.map_cons, List.any_cons]
    by_cases hs : (s.userID == u.userID) = true
    · rw [if_pos hs, hs, Bool.true_or, if_pos rfl]
      exact List.find?_cons_of_pos _ (by simp)
    · have hs' : (s.userID == u.userID) = false := by simpa using hs
      rw [if_neg hs, List.find?_cons_of_neg _ (by simp [hs']), hs',
        Bool.false_or, ih]

theorem getReport_upsert_self (store : List Report) (u : Report) :
    getReport (upsertReport store u) u.userID = some u := by
  unfold getReport upsertReport
  by_cases h : store.any (fun r => r.userID == u.userID) = true
  · rw [if_pos h, find?_replaceKey, if_pos h]
  · rw [if_neg h, List.find?_append]
    have hnone : store.find? (fun r => r.userID == u.userID) = none := by
      rw [List.find?_eq_none]
      intro x hx
      exact fun hpx => h (List.any_of_mem hx hpx)
    simp [hnone]

theorem yesterday_ne_today (now : GoTime) :
    addDays (startOfDay now) (-1) ≠ startOfDay now := by
  simp only [addDays, startOfDay, ne_eq, GoTime.mk.injEq, not_and]
  intro h
  omega

/-- C1: for an existing report whose last-report calendar day is not today,
`ReportActivityUsecase.Execute` increments `streak` when that day is exactly
yesterday and resets `streak` to 1 when it is at least two days before
today; in both cases it increments `activityCount` by 1, sets
`lastReportDate` to now, updates the name, persists via upsert, and returns
the accepted template with the post-update `activityCount`. -/
theorem report_prevday_increment_gap_reset (store : List Report)
    (now : GoTime) (uid name : String) (r : Report)
    (hget : getReport store uid = some r) :
    ((startOfDay r.lastReportDate = addDays (startOfDay now) (-1)) →
      ReportActivityUsecase.run store now uid name =
        (acceptedMsg name (r.activityCount + 1),
          upsertReport store
            ⟨r.userID, name, r.streak + 1, r.activityCount + 1, now⟩)) ∧
    ((startOfDay r.lastReportDate).day ≤ (startOfDay now).day - 2 →
      ReportActivityUsecase.run store now uid name =
        (acceptedMsg name (r.activityCount + 1),
          upsertReport store
            ⟨r.userID, name, 1, r.activityCount + 1, now⟩)) := by
  constructor
  · intro h1
    simp [ReportActivityUsecase.run, ReportActivityUsecase.Execute, hget,
      h1, yesterday_ne_today now]
  · intro h2
    have hne : ¬(startOfDay r.lastReportDate = startOfDay now) := by
      intro hc
      have := congrArg GoTime.day hc
      simp only [startOfDay] at this h2
      omega
    have hney : ¬(startOfDay r.lastReportDate = addDays (startOfDay now) (-1)) := by
      intro hc
      have := congrArg GoTime.day hc
      simp only [startOfDay, addDays] at this h2
      omega
    simp [ReportActivityUsecase.run, ReportActivityUsecase.Execute, hget,
      hne, hney]

theorem report_prevday_increment_gap_reset_witness :
    (ReportActivityUsecase.run [⟨"u1", "Bob", 5, 10, ⟨9, 7⟩⟩] ⟨10, 3⟩ "u1" "Bob" =
      (acceptedMsg "Bob" 11,
        upsertReport [⟨"u1", "Bob", 5, 10, ⟨9, 7⟩⟩] ⟨"u1", "Bob", 6, 11, ⟨10, 3⟩⟩)) ∧
    (ReportActivityUsecase.run [⟨"u1", "Eve", 36, 36, ⟨7, 2⟩⟩] ⟨10, 3⟩ "u1" "Eve" =
      (acceptedMsg "Eve" 37,
        upsertReport [⟨"u1", "Eve", 36, 36, ⟨7, 2⟩⟩] ⟨"u1", "Eve", 1, 37, ⟨10, 3⟩⟩)) :=
  ⟨(report_prevday_increment_gap_reset [⟨"u1", "Bob", 5, 10, ⟨9, 7⟩⟩] ⟨10, 3⟩
      "u1" "Bob" ⟨"u1", "Bob", 5, 10, ⟨9, 7⟩⟩ (by decide)).1 (by decide),
   (report_prevday_increment_gap_reset [⟨"u1", "Eve", 36, 36, ⟨7, 2⟩⟩] ⟨10, 3⟩
      "u1" "Eve" ⟨"u1", "Eve", 36, 36, ⟨7, 2⟩⟩ (by decide)).2 (by decide)⟩

/-- C2: for an existing report whose last-report calendar day is today,
`ReportActivityUsecase.Execute` returns exactly the rejection message with
the incoming name substituted, attempts no `UpsertReport` call, and leaves
the store (hence every field of the stored report) unchanged. -/
theorem report_same_day_rejected_frame (store : List Report) (now : GoTime)
    (uid name : String) (r : Report) (hget : getReport store uid = some r)
    (hsame : startOfDay r.lastReportDate = startOfDay now) :
    ReportActivityUsecase.run store now uid name = (rejectedMsg name, store) ∧
    (ReportActivityUsecase.Execute (Except.ok (getReport store uid))
        (fun _ => none) now uid name).upserted = none := by
  constructor
  · simp [ReportActivityUsecase.run, ReportActivityUsecase.Execute, hget, hsame]
  · simp [ReportActivityUsecase.Execute, hget, hsame]

theorem report_same_day_rejected_frame_witness :
    ReportActivityUsecase.run [⟨"u1", "Diana", 7, 15, ⟨10, 1⟩⟩] ⟨10, 3⟩ "u1" "Diana" =
      (rejectedMsg "Diana", [⟨"u1", "Diana", 7, 15, ⟨10, 1⟩⟩]) ∧
    (ReportActivityUsecase.Execute
        (Except.ok (getReport [⟨"u1", "Diana", 7, 15, ⟨10, 1⟩⟩] "u1"))
        (fun _ => none) ⟨10, 3⟩ "u1" "Diana").upserted = none :=
  report_same_day_rejected_frame [⟨"u1", "Diana", 7, 15, ⟨10, 1⟩⟩] ⟨10, 3⟩
    "u1" "Diana" ⟨"u1", "Diana", 7, 15, ⟨10, 1⟩⟩ (by decide) (by decide)

/-- C3: for a member with no existing report,
`ReportActivityUsecase.Execute` creates a record with `streak = 1`,
`activityCount = 1`, `lastReportDate = now` and the given name, persists it,
and returns the accepted template with count 1. -/
theorem report_first_creates_record (store : List Report) (now : GoTime)
    (uid name : String) (hnone : getReport store uid = none) :
    ReportActivityUsecase.run store now uid name =
      (acceptedMsg name 1, store ++ [⟨uid, name, 1, 1, now⟩]) ∧
    getReport (store ++ [⟨uid, name, 1, 1, now⟩]) uid =
      some ⟨uid, name, 1, 1, now⟩ := by
  have hfind : store.find? (fun r => r.userID == uid) = none := hnone
  have hany : store.any (fun r => r.userID == uid) = false := by
    rw [List.any_eq_false]
    intro x hx
    exact fun hpx => by
      have := List.find?_eq_none.mp hfind x hx
      exact this hpx
  constructor
  · simp [ReportActivityUsecase.run, ReportActivityUsecase.Execute, hnone,
      upsertReport, hany]
  · simp [getReport, List.find?_append, hfind]

theorem report_first_creates_record_witness :
    ReportActivityUsecase.run [] ⟨10, 3⟩ "u1" "Alice" =
      (acceptedMsg "Alice" 1, [] ++ [⟨"u1", "Alice", 1, 1, ⟨10, 3⟩⟩]) ∧
    getReport ([] ++ [⟨"u1", "Alice", 1, 1, ⟨10, 3⟩⟩]) "u1" =
      some ⟨"u1", "Alice", 1, 1, ⟨10, 3⟩⟩ :=
  report_first_creates_record [] ⟨10, 3⟩ "u1" "Alice" (by decide)

/-- C9: a failed `GetReport` read aborts `ReportActivityUsecase.Execute`
with an empty message, the error surfaced, and no write attempted; a failed
`UpsertReport` write surfaces that error unchanged with an empty message. -/
theorem report_persistence_failure (now : GoTime) (uid name e : String)
    (f : Report → Option String) (r : Report) :
    (ReportActivityUsecase.Execute (Except.error e) f now uid name =
      ⟨"", some e, none⟩) ∧
    (ReportActivityUsecase.Execute (Except.ok none) (fun _ => some e)
        now uid name = ⟨"", some e, some ⟨uid, name, 1, 1, now⟩⟩) ∧
    (startOfDay r.lastReportDate ≠ startOfDay now →
      (ReportActivityUsecase.Execute (Except.ok (some r)) (fun _ => some e)
          now uid name).message = "" ∧
      (ReportActivityUsecase.Execute (Except.ok (some r)) (fun _ => some e)
          now uid name).errMsg = some e) := by
  refine ⟨rfl, rfl, fun hne => ?_⟩
  by_cases hy : startOfDay r.lastReportDate = addDays (startOfDay now) (-1) <;>
    simp [ReportActivityUsecase.Execute, hne, hy, yesterday_ne_today now]

theorem report_persistence_failure_witness :
    (ReportActivityUsecase.Execute (Except.ok (some ⟨"u1", "N", 2, 3, ⟨9, 1⟩⟩))
        (fun _ => some "boom") ⟨10, 3⟩ "u1" "N").message = "" ∧
    (ReportActivityUsecase.Execute (Except.ok (some ⟨"u1", "N", 2, 3, ⟨9, 1⟩⟩))
        (fun _ => some "boom") ⟨10, 3⟩ "u1" "N").errMsg = some "boom" :=
  (report_persistence_failure ⟨10, 3⟩ "u1" "N" "boom" (fun _ => none)
      ⟨"u1", "N", 2, 3, ⟨9, 1⟩⟩).2.2 (by decide)

/-- C10: for an existing report whose last-report calendar day is neither
today nor yesterday — including a future day — `ReportActivityUsecase.Execute`
accepts via the reset branch: `streak = 1`, `activityCount` incremented, the
accepted message returned; it is never rejected as a same-day duplicate. -/
theorem report_future_date_reset (store : List Report) (now : GoTime)
    (uid name : String) (r : Report) (hget : getReport store uid = some r)
    (hne1 : startOfDay r.lastReportDate ≠ startOfDay now)
    (hne2 : startOfDay r.lastReportDate ≠ addDays (startOfDay now) (-1)) :
    ReportActivityUsecase.run store now uid name =
      (acceptedMsg name (r.activityCount + 1),
        upsertReport store
          ⟨r.userID, name, 1, r.activityCount + 1, now⟩) := by
  simp [ReportActivityUsecase.run, ReportActivityUsecase.Execute, hget,
    hne1, hne2]

theorem report_future_date_reset_witness :
    ReportActivityUsecase.run [⟨"u1", "Tia", 4, 9, ⟨15, 0⟩⟩] ⟨10, 3⟩ "u1" "Tia" =
      (acceptedMsg "Tia" 10,
        upsertReport [⟨"u1", "Tia", 4, 9, ⟨15, 0⟩⟩] ⟨"u1", "Tia", 1, 10, ⟨10, 3⟩⟩) :=
  report_future_date_reset [⟨"u1", "Tia", 4, 9, ⟨15, 0⟩⟩] ⟨10, 3⟩ "u1" "Tia"
    ⟨"u1", "Tia", 4, 9, ⟨15, 0⟩⟩ (by decide) (by decide) (by decide)

/-- The spec's Report invariants: `streak ≥ 1`, `activityCount ≥ 1`, and
`activityCount ≥ streak`. -/
def reportInvariants (r : Report) : Prop :=
  1 ≤ r.streak ∧ 1 ≤ r.activityCount ∧ r.streak ≤ r.activityCount

instance (r : Report) : Decidable (reportInvariants r) := by
  unfold reportInvariants
  infer_instance

/-- C4: if the member's stored report satisfies `streak ≥ 1`,
`activityCount ≥ 1` and `activityCount ≥ streak` before a
`ReportActivityUsecase.Execute` invocation, then whatever branch runs
(create, same-day rejection, increment, or reset), the member's stored
report afterwards satisfies the same three inequalities. -/
theorem report_invariants_preserved (store : List Report) (now : GoTime)
    (uid name : String)
    (h : ∀ r, getReport store uid = some r → reportInvariants r) :
    ∀ r', getReport (ReportActivityUsecase.run store now uid name).2 uid =
      some r' → reportInvariants r' := by
  intro r' hr'
  cases hget : getReport store uid with
  | none =>
    have hfind : store.find? (fun r => r.userID == uid) = none := hget
    have hany : store.any (fun r => r.userID == uid) = false := by
      rw [List.any_eq_false]
      intro x hx hpx
      exact List.find?_eq_none.mp hfind x hx hpx
    have hrun2 : (ReportActivityUsecase.run store now uid name).2 =
        store ++ [⟨uid, name, 1, 1, now⟩] := by
      simp [ReportActivityUsecase.run, ReportActivityUsecase.Execute, hget,
        upsertReport, hany]
    rw [hrun2] at hr'
    have hg : getReport (store ++ [⟨uid, name, 1, 1, now⟩]) uid =
        some ⟨uid, name, 1, 1, now⟩ := by
      simp [getReport, List.find?_append, hfind]
    rw [hg] at hr'
    injection hr' with he
    subst he
    exact ⟨le_refl 1, le_refl 1, le_refl 1⟩
  | some r =>
    have hinv := h r hget
    have hkey : r.userID = uid := by
      have := List.find?_some hget
      simpa using this
    by_cases hsame : startOfDay r.lastReportDate = startOfDay now
    · have hrun2 : (ReportActivityUsecase.run store now uid name).2 = store := by
        simp [ReportActivityUsecase.run, ReportActivityUsecase.Execute, hget,
          hsame]
      rw [hrun2, hget] at hr'
      injection hr' with he
      subst he
      exact hinv
    · obtain ⟨h1, h2, h3⟩ := hinv
      by_cases hyest : startOfDay r.lastReportDate = addDays (startOfDay now) (-1)
      · have hrun2 : (ReportActivityUsecase.run store now uid name).2 =
            upsertReport store ⟨uid, name, r.streak + 1, r.activityCount + 1, now⟩ := by
          simp [ReportActivityUsecase.run, ReportActivityUsecase.Execute, hget,
            hsame, hyest, yesterday_ne_today now, hkey]
        have hg : getReport
            (upsertReport store ⟨uid, name, r.streak + 1, r.activityCount + 1, now⟩)
            uid = some ⟨uid, name, r.streak + 1, r.activityCount + 1, now⟩ :=
          getReport_upsert_self store _
        rw [hrun2, hg] at hr'
        injection hr' with he
        subst he
        refine ⟨?_, ?_, ?_⟩ <;> simp <;> omega
      · have hrun2 : (ReportActivityUsecase.run store now uid name).2 =
            upsertReport store ⟨uid, name, 1, r.activityCount + 1, now⟩ := by
          simp [ReportActivityUsecase.run, ReportActivityUsecase.Execute, hget,
            hsame, hyest, hkey]
        have hg : getReport
            (upsertReport store ⟨uid, name, 1, r.activityCount + 1, now⟩)
            uid = some ⟨uid, name, 1, r.activityCount + 1, now⟩ :=
          getReport_upsert_self store _
        rw [hrun2, hg] at hr'
        injection hr' with he
        subst he
        refine ⟨?_, ?_, ?_⟩ <;> simp <;> omega

theorem report_invariants_preserved_witness :
    reportInvariants ⟨"u1", "Bob", 6, 11, ⟨10, 3⟩⟩ :=
  report_invariants_preserved [⟨"u1", "Bob", 5, 10, ⟨9, 7⟩⟩] ⟨10, 3⟩ "u1" "Bob"
    (fun r hr => by
      have hr2 : some (⟨"u1", "Bob", 5, 10, ⟨9, 7⟩⟩ : Report) = some r := hr
      injection hr2 with he
      subst he
      decide)
    ⟨"u1", "Bob", 6, 11, ⟨10, 3⟩⟩ (by decide)

/-- C5: `GetLeaderboardUsecase.Execute` places a report in the rendered
active partition exactly when its last-report calendar day is today or
yesterday, in the lost partition otherwise, and it does not mutate the
store. -/
theorem leaderboard_partition_active_iff (reports : List Report)
    (now : GoTime) (r : Report) :
    (r ∈ GetLeaderboardUsecase.sortByStreakDesc
        (GetLeaderboardUsecase.keepStreakOf reports now) ↔
      r ∈ reports ∧ (startOfDay r.lastReportDate = startOfDay now ∨
        startOfDay r.lastReportDate = addDays (startOfDay now) (-1))) ∧
    (r ∈ GetLeaderboardUsecase.sortByStreakDesc
        (GetLeaderboardUsecase.loseStreakOf reports now) ↔
      r ∈ reports ∧ ¬(startOfDay r.lastReportDate = startOfDay now ∨
        startOfDay r.lastReportDate = addDays (startOfDay now) (-1))) ∧
    GetLeaderboardUsecase.run reports now =
      (GetLeaderboardUsecase.Execute reports now, reports) := by
  refine ⟨?_, ?_, rfl⟩
  · rw [GetLeaderboardUsecase.sortByStreakDesc,
      (List.mergeSort_perm _ _).mem_iff]
    simp [GetLeaderboardUsecase.keepStreakOf, List.mem_filter]
  · rw [GetLeaderboardUsecase.sortByStreakDesc,
      (List.mergeSort_perm _ _).mem_iff]
    simp [GetLeaderboardUsecase.loseStreakOf, List.mem_filter]

namespace GetLeaderboardUsecase

theorem renderRanked_length (f : Nat → Report → String) (k : Nat)
    (l : List Report) : (renderRanked f k l).length = l.length := by
  induction l generalizing k with
  | nil => rfl
  | cons r rs ih => simp [renderRanked, ih]

theorem renderRanked_getElem (f : Nat → Report → String) (k : Nat)
    (l : List Report) (i : Nat) :
    (renderRanked f k l)[i]? = (l[i]?).map (f (k + i)) := by
  induction l generalizing k i with
  | nil => simp [renderRanked]
  | cons r rs ih =>
    cases i with
    | zero => simp [renderRanked]
    | succ n =>
      simp only [renderRanked, List.getElem?_cons_succ, ih (k + 1) n]
      have he : k + 1 + n = k + (n + 1) := by omega
      rw [he]

theorem sortByStreakDesc_sorted (l : List Report) :
    List.Sorted (fun a b : Report => b.streak ≤ a.streak)
      (sortByStreakDesc l) := by
  have h := @List.sorted_mergeSort Report
    (fun a b : Report => decide (b.streak ≤ a.streak))
    (fun a b c hab hbc => by
      simp only [decide_eq_true_eq] at hab hbc ⊢
      omega)
    (fun a b => by
      simp only [Bool.or_eq_true, decide_eq_true_eq]
      omega)
    l
  rw [sortByStreakDesc]
  exact h.imp (fun hab => by simpa using hab)

/-- C6: the leaderboard output renders the active partition first (sorted by
streak descending, each line formatted by `activeLine`), then the lost
partition (sorted by streak descending, each line formatted by `lostLine`),
with one rank counter contiguous from 1 across both partitions: the i-th
rendered rank line (0-based) carries rank `1 + i`. -/
theorem leaderboard_sorted_ranked_render (reports : List Report)
    (now : GoTime) :
    (Execute reports now =
      headerLine (maxDayOf reports) (formatDate now)
        ++ recapBlock (maxDayOf reports)
          (sortByStreakDesc (keepStreakOf reports now)).length
          (sortByStreakDesc (loseStreakOf reports now)).length
        ++ String.join (renderRanked activeLine 1
          (sortByStreakDesc (keepStreakOf reports now)))
        ++ String.join (renderRanked lostLine
          (1 + (sortByStreakDesc (keepStreakOf reports now)).length)
          (sortByStreakDesc (loseStreakOf reports now)))
        ++ footer) ∧
    List.Sorted (fun a b : Report => b.streak ≤ a.streak)
      (sortByStreakDesc (keepStreakOf reports now)) ∧
    List.Sorted (fun a b : Report => b.streak ≤ a.streak)
      (sortByStreakDesc (loseStreakOf reports now)) ∧
    (sortByStreakDesc (keepStreakOf reports now)).Perm
      (keepStreakOf reports now) ∧
    (sortByStreakDesc (loseStreakOf reports now)).Perm
      (loseStreakOf reports now) ∧
    (∀ i : Nat,
      (renderRanked activeLine 1 (sortByStreakDesc (keepStreakOf reports now))
        ++ renderRanked lostLine
          (1 + (sortByStreakDesc (keepStreakOf reports now)).length)
          (sortByStreakDesc (loseStreakOf reports now)))[i]? =
      if i < (sortByStreakDesc (keepStreakOf reports now)).length then
        ((sortByStreakDesc (keepStreakOf reports now))[i]?).map
          (activeLine (1 + i))
      else
        ((sortByStreakDesc (loseStreakOf reports now))[i -
            (sortByStreakDesc (keepStreakOf reports now)).length]?).map
          (lostLine (1 + i))) := by
  refine ⟨rfl, sortByStreakDesc_sorted _, sortByStreakDesc_sorted _,
    List.mergeSort_perm _ _, List.mergeSort_perm _ _, ?_⟩
  intro i
  rw [List.getElem?_append, renderRanked_length, renderRanked_getElem,
    renderRanked_getElem]
  by_cases hi : i < (sortByStreakDesc (keepStreakOf reports now)).length
  · rw [if_pos hi, if_pos hi]
  · rw [if_neg hi, if_neg hi,
      show 1 + (sortByStreakDesc (keepStreakOf reports now)).length +
        (i - (sortByStreakDesc (keepStreakOf reports now)).length) = 1 + i
      from by omega]

theorem foldl_maxDay_init_le (l : List Report) (a : Int) :
    a ≤ l.foldl
      (fun m r => if m < r.activityCount then r.activityCount else m) a := by
  induction l generalizing a with
  | nil => exact le_refl a
  | cons s rest ih =>
    rw [List.foldl_cons]
    refine le_trans ?_ (ih (if a < s.activityCount then s.activityCount else a))
    split <;> omega

theorem foldl_maxDay_mem_le (l : List Report) (a : Int) (r : Report)
    (hr : r ∈ l) :
    r.activityCount ≤ l.foldl
      (fun m r => if m < r.activityCount then r.activityCount else m) a := by
  induction l generalizing a with
  | nil => cases hr
  | cons s rest ih =>
    rw [List.foldl_cons]
    rcases List.mem_cons.mp hr with he | hm
    · subst he
      refine le_trans ?_ (foldl_maxDay_init_le rest _)
      split <;> omega
    · exact ih _ hm

theorem foldl_maxDay_eq_init_or_mem (l : List Report) (a : Int) :
    l.foldl (fun m r => if m < r.activityCount then r.activityCount else m) a
        = a ∨
      ∃ r ∈ l,
        l.foldl (fun m r => if m < r.activityCount then r.activityCount else m) a
          = r.activityCount := by
  induction l generalizing a with
  | nil => exact Or.inl rfl
  | cons s rest ih =>
    rw [List.foldl_cons]
    rcases ih (if a < s.activityCount then s.activityCount else a) with h | hex
    · by_cases hc : a < s.activityCount
      · exact Or.inr ⟨s, List.mem_cons_self s rest, by rw [h, if_pos hc]⟩
      · exact Or.inl (by rw [h, if_neg hc])
    · obtain ⟨r, hr, he⟩ := hex
      exact Or.inr ⟨r, List.mem_cons_of_mem s hr, he⟩

/-- C7: the leaderboard's day counter `maxDay` is the maximum
`activityCount` over all reports (0 when none exist, with nonnegative
counts); it feeds both the title line (`headerLine`) and the
`"Recap day N:"` line (`recapBlock`); and with no reports the full
formatted output is still produced, with `maxDay = 0`, zero recap counts
and empty rank sections. -/
theorem leaderboard_header_maxcount (reports : List Report) (now : GoTime)
    (h : ∀ r ∈ reports, 0 ≤ r.activityCount) :
    (∀ r ∈ reports, r.activityCount ≤ maxDayOf reports) ∧
    (reports = [] → maxDayOf reports = 0) ∧
    (reports ≠ [] → ∃ r ∈ reports, maxDayOf reports = r.activityCount) ∧
    (Execute reports now =
      headerLine (maxDayOf reports) (formatDate now)
        ++ recapBlock (maxDayOf reports)
          (sortByStreakDesc (keepStreakOf reports now)).length
          (sortByStreakDesc (loseStreakOf reports now)).length
        ++ String.join (renderRanked activeLine 1
          (sortByStreakDesc (keepStreakOf reports now)))
        ++ String.join (renderRanked lostLine
          (1 + (sortByStreakDesc (keepStreakOf reports now)).length)
          (sortByStreakDesc (loseStreakOf reports now)))
        ++ footer) ∧
    (Execute [] now =
      headerLine 0 (formatDate now) ++ recapBlock 0 0 0 ++ footer) := by
  refine ⟨fun r hr => foldl_maxDay_mem_le reports 0 r hr,
    fun he => by rw [he]; rfl, fun hne => ?_, rfl, ?_⟩
  · rcases foldl_maxDay_eq_init_or_mem reports 0 with h0 | hex
    · obtain ⟨r0, hr0⟩ : ∃ r0, r0 ∈ reports := by
        cases reports with
        | nil => exact absurd rfl hne
        | cons s rest => exact ⟨s, List.mem_cons_self s rest⟩
      refine ⟨r0, hr0, ?_⟩
      have h1 := foldl_maxDay_mem_le reports 0 r0 hr0
      have h2 := h r0 hr0
      unfold maxDayOf
      omega
    · simpa [maxDayOf] using hex
  · simp [Execute, keepStreakOf, loseStreakOf, sortByStreakDesc, maxDayOf,
      renderRanked, show String.join [] = "" from rfl, String.append_empty]

theorem leaderboard_header_maxcount_witness :
    (∀ r ∈ [(⟨"u1", "A", 5, 5, ⟨10, 0⟩⟩ : Report), ⟨"u2", "B", 0, 30, ⟨3, 0⟩⟩],
      r.activityCount ≤
        maxDayOf [⟨"u1", "A", 5, 5, ⟨10, 0⟩⟩, ⟨"u2", "B", 0, 30, ⟨3, 0⟩⟩]) ∧
    (∃ r ∈ [(⟨"u1", "A", 5, 5, ⟨10, 0⟩⟩ : Report), ⟨"u2", "B", 0, 30, ⟨3, 0⟩⟩],
      maxDayOf [⟨"u1", "A", 5, 5, ⟨10, 0⟩⟩, ⟨"u2", "B", 0, 30, ⟨3, 0⟩⟩] =
        r.activityCount) :=
  ⟨(leaderboard_header_maxcount
      [⟨"u1", "A", 5, 5, ⟨10, 0⟩⟩, ⟨"u2", "B", 0, 30, ⟨3, 0⟩⟩] ⟨10, 3⟩
      (by decide)).1,
   (leaderboard_header_maxcount
      [⟨"u1", "A", 5, 5, ⟨10, 0⟩⟩, ⟨"u2", "B", 0, 30, ⟨3, 0⟩⟩] ⟨10, 3⟩
      (by decide)).2.2.1 (by decide)⟩

end GetLeaderboardUsecase

/-- C8: the Command Router trims surrounding whitespace and case-folds the
inbound text; a result starting with `#lapor` dispatches to the Streak
Accounting Operation, one starting with `#leaderboard` dispatches to the
Leaderboard Operation (which reads but does not write), and anything else —
including empty text and the bare tokens without `#` — yields an empty
result with the store untouched. -/
theorem router_dispatch (store : List Report) (now : GoTime)
    (uid name raw : String) :
    ("#lapor".data.isPrefixOf (normalizedText raw) = true →
      HandleMessageUsecase.Execute store now uid name raw =
        ReportActivityUsecase.run store now uid name) ∧
    ("#lapor".data.isPrefixOf (normalizedText raw) = false →
      "#leaderboard".data.isPrefixOf (normalizedText raw) = true →
      HandleMessageUsecase.Execute store now uid name raw =
        (GetLeaderboardUsecase.Execute store now, store)) ∧
    ("#lapor".data.isPrefixOf (normalizedText raw) = false →
      "#leaderboard".data.isPrefixOf (normalizedText raw) = false →
      HandleMessageUsecase.Execute store now uid name raw = ("", store)) := by
  refine ⟨fun h1 => ?_, fun h1 h2 => ?_, fun h1 h2 => ?_⟩
  · simp [HandleMessageUsecase.Execute, h1]
  · simp [HandleMessageUsecase.Execute, GetLeaderboardUsecase.run, h1, h2]
  · simp [HandleMessageUsecase.Execute, h1, h2]

theorem router_dispatch_witness :
    (HandleMessageUsecase.Execute [] ⟨10, 3⟩ "u1" "Alice" "  #LAPOR lari pagi " =
      ReportActivityUsecase.run [] ⟨10, 3⟩ "u1" "Alice") ∧
    (HandleMessageUsecase.Execute [] ⟨10, 3⟩ "u1" "Alice" " #LeaderBoard " =
      (GetLeaderboardUsecase.Execute [] ⟨10, 3⟩, [])) ∧
    (HandleMessageUsecase.Execute [] ⟨10, 3⟩ "u1" "Alice" "lapor" = ("", [])) ∧
    (HandleMessageUsecase.Execute [] ⟨10, 3⟩ "u1" "Alice" "leaderboard" = ("", [])) ∧
    (HandleMessageUsecase.Execute [] ⟨10, 3⟩ "u1" "Alice" "" = ("", [])) :=
  ⟨(router_dispatch [] ⟨10, 3⟩ "u1" "Alice" "  #LAPOR lari pagi ").1 (by decide),
   (router_dispatch [] ⟨10, 3⟩ "u1" "Alice" " #LeaderBoard ").2.1 (by decide)
     (by decide),
   (router_dispatch [] ⟨10, 3⟩ "u1" "Alice" "lapor").2.2 (by decide) (by decide),
   (router_dispatch [] ⟨10, 3⟩ "u1" "Alice" "leaderboard").2.2 (by decide)
     (by decide),
   (router_dispatch [] ⟨10, 3⟩ "u1" "Alice" "").2.2 (by decide) (by decide)⟩

end LaporBot
